import Mathlib

/-
Verification development for the doc-compiler web application.

The definitions below are a shallow embedding of the TypeScript source:
  * the discovery API route (the fuller variant, with navigation discovery),
    whose core functions are `formatSize`, `categorizeUrl`, `categorizePages`,
    `discoverSitemap`, `extractUrlsFromSitemap` and
    `discoverDocumentationStructure`;
  * the compile API route (`compileDocumentationSimple`, `extractTitle`,
    `extractContent`).

Network effects are modelled by passing the outcome of each fetch as an
explicit argument (a value of `FetchOutcome`, or an `Option` for a
sub-task of `Promise.allSettled` that may reject).  JavaScript numbers are
modelled as `Nat`: every arithmetic operation performed by the code on the
values in question (`Math.round(chars/100)/10`, `parseFloat(s)*1000` on
one-decimal strings, sums of such values) is exact on the rationals at the
granularity of tenths, which the embedding tracks exactly by scaling.
JavaScript strings are modelled as `String`/`List Char` (one code unit per
`Char`); `toLowerCase` is modelled ASCII-wise by `Char.toLower`.
-/

set_option maxRecDepth 8192

namespace DocCompiler

/-- Decimal digit character `d` (`0`–`9`), used to model the decimal
rendering performed by a JavaScript template literal such as
a template with the number `chars` spliced in. -/
def digitChar (d : Nat) : Char :=
  match d with
  | 0 => '0' | 1 => '1' | 2 => '2' | 3 => '3' | 4 => '4'
  | 5 => '5' | 6 => '6' | 7 => '7' | 8 => '8' | _ => '9'

/-- Fuelled decimal rendering of a natural number (most significant digit
first).  The fuel is only a termination device; `natDigits` always supplies
enough of it. -/
def natDigitsAux : Nat → Nat → List Char
  | 0, _ => []
  | fuel + 1, n =>
    if n < 10 then [digitChar n]
    else natDigitsAux fuel (n / 10) ++ [digitChar (n % 10)]

/-- Decimal digits of `n`, most significant first. -/
def natDigits (n : Nat) : List Char := natDigitsAux (n + 1) n

/-- Decimal rendering of a natural number, as produced by a JS template
literal for an integral number value. -/
def renderNat (n : Nat) : String := ⟨natDigits n⟩

/-- Rendering of the JS number `r / 10` (where `r : Nat` is
`Math.round(chars / 100)`).  JavaScript prints `2` (not `2.0`) when the
value is integral, and `d.d` otherwise. -/
def renderTenths (r : Nat) : String :=
  if r % 10 == 0 then renderNat (r / 10)
  else renderNat (r / 10) ++ "." ++ renderNat (r % 10)

/-- `formatSize` from the discovery route:
`if (chars < 1000) return Nat + " chars"; if (chars < 10000) return
Math.round(chars/100)/10 + "k chars"; return Math.round(chars/1000) + "k chars"`.
`Math.round(x)` rounds half away from zero, i.e. `⌊x + 1/2⌋` for the
non-negative values here, so `Math.round(chars/100) = (chars + 50) / 100`
and `Math.round(chars/1000) = (chars + 500) / 1000` in exact arithmetic
(the quotients are `Nat` floor divisions). -/
def formatSize (chars : Nat) : String :=
  if chars < 1000 then renderNat chars ++ " chars"
  else if chars < 10000 then renderTenths ((chars + 50) / 100) ++ "k chars"
  else renderNat ((chars + 500) / 1000) ++ "k chars"

/-- Parsing a string of decimal digits, as `parseInt` does on an
all-digit string; the empty list yields `0`, matching the
`parseInt(...) || 0` fallback at the use site. -/
def parseDigits (l : List Char) : Nat :=
  l.foldl (fun a c => a * 10 + (c.toNat - 48)) 0

/-- The `parseFloat(str) * 1000` step of the size aggregation, on a string
already filtered down to digits and dots.  `parseFloat` reads an integer
part and then a fractional part up to the next non-number character (a
second dot); multiplying by 1000 is exact for up to three fractional
digits, which covers every string `formatSize` can produce (at most one
fractional digit). -/
def parseKTimes1000 (l : List Char) : Nat :=
  let intPart := l.takeWhile (fun c => c != '.')
  let rest := l.dropWhile (fun c => c != '.')
  let frac := (rest.drop 1).takeWhile (fun c => c != '.')
  parseDigits intPart * 1000 +
    parseDigits (frac.take 3 ++ List.replicate (3 - (frac.take 3).length) '0')

/-- The per-page size parsing inside `discoverDocumentationStructure`'s
`reduce`:  lowercase the size string; if it contains `k`, strip everything
but digits and dots and `parseFloat` it times 1000; otherwise strip
everything but digits and `parseInt` it (with `|| 0`). -/
def parseSize (s : String) : Nat :=
  let t := s.data.map Char.toLower
  if t.any (fun c => c == 'k') then
    parseKTimes1000 (t.filter (fun c => c.isDigit || c == '.'))
  else
    parseDigits (t.filter (fun c => c.isDigit))

/-- The character count displayed by `formatSize chars`: the exact value
the displayed string denotes (`k` meaning a factor 1000).  This is a
specification-side characterisation used in theorem statements. -/
def displayedMagnitude (chars : Nat) : Nat :=
  if chars < 1000 then chars
  else if chars < 10000 then ((chars + 50) / 100) * 100
  else ((chars + 500) / 1000) * 1000

/-- Modelled from the claim's words (refinement target, not from the
source): the band-two size string with the fractional digit obtained by
TRUNCATING `chars / 1000` to one fractional digit, i.e. the claimed
`<n.n>k chars` form for `1000 ≤ chars < 10000`. -/
def truncatedTenthsForm (chars : Nat) : String :=
  renderNat (chars / 1000) ++ "." ++ renderNat (chars / 100 % 10) ++ "k chars"

/-- Containment of `pat` as a contiguous run somewhere in the list. -/
def listHasRun (pat : List Char) : List Char → Bool
  | [] => pat.isEmpty
  | c :: rest => pat.isPrefixOf (c :: rest) || listHasRun pat rest

/-- JS `s.includes(sub)`: substring containment. -/
def strIncludes (s sub : String) : Bool := listHasRun sub.data s.data

/-- JS `s.match(/sub$/)` for a literal pattern: suffix test. -/
def endsWithStr (s sub : String) : Bool := sub.data.isSuffixOf s.data

/-- JS `s.toLowerCase()` (ASCII letters; the code only compares against
ASCII patterns). -/
def jsToLower (s : String) : String := ⟨s.data.map Char.toLower⟩

/-- Rule 1 of `categorizeUrl` (the fuller discovery route):
`path.includes('/api/') || path.includes('/reference/') ||
path.includes('/ref/') || path.match(/\/api$/) || path.includes('reference')`. -/
def ruleApiReference (path : String) : Bool :=
  strIncludes path "/api/" || strIncludes path "/reference/" ||
  strIncludes path "/ref/" || endsWithStr path "/api" ||
  strIncludes path "reference"

/-- Rule 2 of `categorizeUrl`: example detection. -/
def ruleExamples (path : String) : Bool :=
  strIncludes path "/example/" || strIncludes path "/examples/" ||
  strIncludes path "/sample/" || strIncludes path "example"

/-- Rule 3 of `categorizeUrl`: guides and tutorials. -/
def ruleGuides (path : String) : Bool :=
  strIncludes path "/guide/" || strIncludes path "/guides/" ||
  strIncludes path "/tutorial/" || strIncludes path "/tutorials/" ||
  strIncludes path "guide" || strIncludes path "tutorial"

/-- Rule 4 of `categorizeUrl`: getting started. -/
def ruleGettingStarted (path : String) : Bool :=
  strIncludes path "/quick" || strIncludes path "/start" ||
  strIncludes path "/getting" || strIncludes path "quickstart" ||
  strIncludes path "introduction"

/-- Rule 5 of `categorizeUrl`: concepts and overview. -/
def ruleConcepts (path : String) : Bool :=
  strIncludes path "/concept/" || strIncludes path "/concepts/" ||
  strIncludes path "/overview/" || strIncludes path "concept" ||
  strIncludes path "overview"

/-- `categorizeUrl` from the fuller discovery route: lowercase the URL,
then first matching rule wins, in the fixed order API Reference,
Examples, Guides & Tutorials, Getting Started, Concepts, else General
Documentation. -/
def categorizeUrl (url : String) : String :=
  let path := jsToLower url
  if ruleApiReference path then "API Reference"
  else if ruleExamples path then "Examples"
  else if ruleGuides path then "Guides & Tutorials"
  else if ruleGettingStarted path then "Getting Started"
  else if ruleConcepts path then "Concepts"
  else "General Documentation"

/-- `PageInfo` from the discovery route. -/
structure PageInfo where
  url : String
  title : String
  category : String
  description : Option String
  estimatedSize : String

/-- Result of `fetchMainPageInfo`. -/
structure MainPageInfo where
  title : String
  description : String

/-- The `data` object of a successful discovery response.  A JS object
with dynamic string keys is modelled as an association list in key
insertion order, which is the enumeration order `Object.keys` exposes. -/
structure DiscoveryData where
  baseUrl : String
  title : String
  totalPages : Nat
  categories : List (String × List PageInfo)
  estimatedTotalSize : String

/-- The priority list hard-coded in `categorizePages`. -/
def priorityOrder : List String :=
  ["Getting Started", "API Reference", "Guides & Tutorials", "Examples",
   "Concepts", "General Documentation"]

/-- One step of the first loop of `categorizePages`: push `page` onto the
bucket of its category, creating the bucket (at the end, i.e. in key
insertion order) when absent. -/
def insertPage (categories : List (String × List PageInfo)) (page : PageInfo) :
    List (String × List PageInfo) :=
  if categories.any (fun kv => kv.1 == page.category) then
    categories.map (fun kv =>
      if kv.1 == page.category then (kv.1, kv.2 ++ [page]) else kv)
  else categories ++ [(page.category, [page])]

/-- The grouping loop of `categorizePages` (`pages.forEach(...)`). -/
def groupPages (pages : List PageInfo) : List (String × List PageInfo) :=
  pages.foldl insertPage []

/-- One step of the `priorityOrder.forEach` loop of `categorizePages`:
copy the bucket for `c` into the sorted object if present. -/
def pickPriority (cats : List (String × List PageInfo))
    (acc : List (String × List PageInfo)) (c : String) :
    List (String × List PageInfo) :=
  match cats.find? (fun kv => kv.1 == c) with
  | some kv => acc ++ [kv]
  | none => acc

/-- One step of the final `Object.keys(categories).forEach` loop of
`categorizePages`: append any bucket not copied yet. -/
def addMissing (acc : List (String × List PageInfo))
    (kv : String × List PageInfo) : List (String × List PageInfo) :=
  if acc.any (fun kv2 => kv2.1 == kv.1) then acc else acc ++ [kv]

/-- `categorizePages`: group by category, then emit the priority
categories in the fixed order followed by any remaining categories in
insertion (first-seen) order. -/
def categorizePages (pages : List PageInfo) : List (String × List PageInfo) :=
  let cats := groupPages pages
  cats.foldl addMissing (priorityOrder.foldl (pickPriority cats) [])

/-- The candidate-URL deduplication
`[url, ...sitemapResult, ...navigationResult].filter((u, i, arr) => arr.indexOf(u) === i)`:
an element is kept exactly when its index is the index of its first
occurrence, i.e. first occurrences are kept, in order.  `seen` holds the
values already emitted. -/
def dedupAux (seen : List String) : List String → List String
  | [] => []
  | x :: xs =>
    if seen.any (fun y => y == x) then dedupAux seen xs
    else x :: dedupAux (x :: seen) xs

/-- Keep-first-occurrence deduplication by exact string equality. -/
def jsDedup (l : List String) : List String := dedupAux [] l

/-- `allUrls` of `discoverDocumentationStructure`:
`[url, ...sitemapResult, ...navigationResult]` deduplicated. -/
def allCandidateUrls (url : String) (sitemapResult navigationResult : List String) :
    List String :=
  jsDedup (url :: (sitemapResult ++ navigationResult))

/-- The URLs the discovery route actually analyses:
`allUrls.slice(0, 50)`. -/
def discoverAnalyzedUrls (url : String) (sitemapResult navigationResult : List String) :
    List String :=
  (allCandidateUrls url sitemapResult navigationResult).take 50

/-- The size-aggregation `reduce` of `discoverDocumentationStructure`. -/
def totalEstimatedChars (pages : List PageInfo) : Nat :=
  pages.foldl (fun sum page => sum + parseSize page.estimatedSize) 0

/-- `discoverDocumentationStructure` (fuller variant), as a function of
the outcomes of its network sub-tasks: `sitemapRes`, `mainRes` and
`navRes` are the settled results of the three `Promise.allSettled`
sub-tasks (`none` = rejected), and `pageOutcome u` is the settled result
of `getPageInfo u` (`none` = the page failed and is dropped).  A rejected
sitemap or navigation task contributes `[]` (`sitemapRes.getD []`); a
missing main page throws. -/
def discoverDocumentationStructure (url : String) (sitemapRes : Option (List String))
    (mainRes : Option MainPageInfo) (navRes : Option (List String))
    (pageOutcome : String → Option PageInfo) : Except String DiscoveryData :=
  match mainRes with
  | none => .error "Failed to fetch main page information"
  | some mainPageInfo =>
    let pages := (discoverAnalyzedUrls url (sitemapRes.getD []) (navRes.getD [])).filterMap pageOutcome
    .ok ⟨url, mainPageInfo.title, pages.length, categorizePages pages,
         formatSize (totalEstimatedChars pages)⟩

/-- Outcome of one `fetch` call: an HTTP response (any status) or a
network/timeout rejection. -/
inductive FetchOutcome where
  | response (status : Nat) (statusText : String) (body : String)
  | networkError (message : String)

/-- `Response.ok`: status in the range 200–299. -/
def statusOk (status : Nat) : Bool := decide (200 ≤ status ∧ status < 300)

/-- Specification-side characterisation of a probe outcome on which the
sitemap loop advances to the next candidate: a thrown fetch or a non-2xx
response. -/
def probeBad (o : FetchOutcome) : Bool :=
  match o with
  | .response s _ _ => !(statusOk s)
  | .networkError _ => true

/-- Fuelled scanner for the global regex over `<loc>([^<]+)</loc>`:
at each position, if the literal `<loc>` starts here, the capture is the
(non-empty) run of non-`<` characters after it, and must be followed by
the literal `</loc>`; scanning resumes after the whole match, or at the
next position when there is no match here. -/
def locsAux : Nat → List Char → List String
  | 0, _ => []
  | _ + 1, [] => []
  | fuel + 1, c :: rest =>
    if ['<', 'l', 'o', 'c', '>'].isPrefixOf (c :: rest) then
      let after := (c :: rest).drop 5
      let cap := after.takeWhile (fun d => d != '<')
      let tail := after.dropWhile (fun d => d != '<')
      if cap.isEmpty then locsAux fuel rest
      else if ['<', '/', 'l', 'o', 'c', '>'].isPrefixOf tail then
        (⟨cap⟩ : String) :: locsAux fuel (tail.drop 6)
      else locsAux fuel rest
    else locsAux fuel rest

/-- `extractUrlsFromSitemap`: all `<loc>…</loc>` contents, in order. -/
def extractUrlsFromSitemap (xml : String) : List String :=
  locsAux (xml.data.length + 1) xml.data

/-- The permissive post-filter applied to sitemap URLs in the fuller
discovery route (documentation-path allowlist OR not on the blocklist). -/
def sitemapUrlFilter (url : String) : Bool :=
  let lowerUrl := jsToLower url
  strIncludes lowerUrl "/docs" || strIncludes lowerUrl "/api" ||
  strIncludes lowerUrl "/guide" || strIncludes lowerUrl "/reference" ||
  strIncludes lowerUrl "/tutorial" || strIncludes lowerUrl "/examples" ||
  strIncludes lowerUrl "/ref/" || strIncludes lowerUrl "/documentation" ||
  (!(strIncludes lowerUrl "/blog") && !(strIncludes lowerUrl "/changelog") &&
   !(strIncludes lowerUrl "/careers") && !(strIncludes lowerUrl "/about") &&
   !(strIncludes lowerUrl "/contact") && !(strIncludes lowerUrl "/privacy") &&
   !(strIncludes lowerUrl "/terms"))

/-- The three sitemap candidates probed by `discoverSitemap`, in order. -/
def sitemapProbeUrls (origin : String) : List String :=
  [origin ++ "/sitemap.xml", origin ++ "/sitemap_index.xml", origin ++ "/docs/sitemap.xml"]

/-- The `for … of` loop of `discoverSitemap`: a thrown fetch (network
error/timeout) or a non-2xx response advances to the next candidate; the
first 2xx response is parsed and filtered and returned; exhaustion yields
`[]`. -/
def discoverSitemapLoop (net : String → FetchOutcome) : List String → List String
  | [] => []
  | u :: us =>
    match net u with
    | .response status _ body =>
      if statusOk status then (extractUrlsFromSitemap body).filter sitemapUrlFilter
      else discoverSitemapLoop net us
    | .networkError _ => discoverSitemapLoop net us

/-- `discoverSitemap` (fuller variant), with the network modelled by
`net`. -/
def discoverSitemap (origin : String) (net : String → FetchOutcome) : List String :=
  discoverSitemapLoop net (sitemapProbeUrls origin)

/-- The JS `\s` class (the code points the whitespace handling in the
code can encounter; ASCII whitespace plus NBSP and BOM). -/
def jsIsWhitespace (c : Char) : Bool :=
  c == ' ' || c == '\t' || c == '\n' || c == '\r' ||
  c.toNat == 11 || c.toNat == 12 || c.toNat == 160 || c.toNat == 65279

/-- JS `String.prototype.trim`. -/
def jsTrim (l : List Char) : List Char :=
  ((l.dropWhile jsIsWhitespace).reverse.dropWhile jsIsWhitespace).reverse

/-- Fuelled scanner for `replace(/\s+/g, ' ')`: each maximal whitespace
run becomes a single space. -/
def collapseWsAux : Nat → List Char → List Char
  | 0, l => l
  | _ + 1, [] => []
  | fuel + 1, c :: rest =>
    if jsIsWhitespace c then ' ' :: collapseWsAux fuel (rest.dropWhile jsIsWhitespace)
    else c :: collapseWsAux fuel rest

/-- `replace(/\s+/g, ' ')`. -/
def collapseWs (l : List Char) : List Char := collapseWsAux (l.length + 1) l

/-- Fuelled scanner for `replace(/<[^>]+>/g, ' ')`: `<`, at least one
non-`>` character, then `>`, replaced by a single space; `<>` or an
unclosed `<` does not match and the scan advances one position. -/
def stripTagsAux : Nat → List Char → List Char
  | 0, l => l
  | _ + 1, [] => []
  | fuel + 1, c :: rest =>
    if c == '<' then
      let body := rest.takeWhile (fun d => d != '>')
      let after := rest.dropWhile (fun d => d != '>')
      if body.isEmpty then c :: stripTagsAux fuel rest
      else
        match after with
        | _ :: tail => ' ' :: stripTagsAux fuel tail
        | [] => c :: stripTagsAux fuel rest
    else c :: stripTagsAux fuel rest

/-- `replace(/<[^>]+>/g, ' ')`. -/
def stripTags (l : List Char) : List Char := stripTagsAux (l.length + 1) l

/-- Case-insensitive literal-prefix test (the pattern is given in
lowercase). -/
def startsWithCI (pat : List Char) (l : List Char) : Bool :=
  (l.take pat.length).map Char.toLower == pat

/-- The `\b` word boundary after an ASCII word pattern: the next
character, if any, is not a word character. -/
def wordBoundaryAfter : List Char → Bool
  | [] => true
  | c :: _ => !(c.isAlphanum || c == '_')

/-- Drop everything through the first case-insensitive occurrence of
`pat`, returning the suffix after it (`none` when `pat` never occurs). -/
def dropThroughCI (pat : List Char) : List Char → Option (List Char)
  | [] => none
  | c :: rest =>
    if startsWithCI pat (c :: rest) then some ((c :: rest).drop pat.length)
    else dropThroughCI pat rest

/-- Fuelled scanner for the block-removal regexes of `extractContent`,
 such as the script one: a match starts at a case-insensitive
`<script` with a word boundary after it and extends to the first
case-insensitive `</script>`; an unclosed opener does not match and the
scan advances one position. -/
def stripBlocksAux (tagOpen tagClose : List Char) (tagLen : Nat) :
    Nat → List Char → List Char
  | 0, l => l
  | _ + 1, [] => []
  | fuel + 1, c :: rest =>
    if startsWithCI tagOpen (c :: rest) && wordBoundaryAfter ((c :: rest).drop tagLen) then
      match dropThroughCI tagClose ((c :: rest).drop tagLen) with
      | some tail => stripBlocksAux tagOpen tagClose tagLen fuel tail
      | none => c :: stripBlocksAux tagOpen tagClose tagLen fuel rest
    else c :: stripBlocksAux tagOpen tagClose tagLen fuel rest

/-- Pattern pieces for the script/style removal regexes. -/
def scriptOpen : List Char := ['<', 's', 'c', 'r', 'i', 'p', 't']

/-- Closing literal of the script-removal regex. -/
def scriptClose : List Char := ['<', '/', 's', 'c', 'r', 'i', 'p', 't', '>']

/-- Opening literal of the style-removal regex. -/
def styleOpen : List Char := ['<', 's', 't', 'y', 'l', 'e']

/-- Closing literal of the style-removal regex. -/
def styleClose : List Char := ['<', '/', 's', 't', 'y', 'l', 'e', '>']

/-- Removal of `<script…>…</script>` blocks (first line of
`extractContent`). -/
def stripScriptBlocks (l : List Char) : List Char :=
  stripBlocksAux scriptOpen scriptClose 7 (l.length + 1) l

/-- Removal of `<style…>…</style>` blocks (second line of
`extractContent`). -/
def stripStyleBlocks (l : List Char) : List Char :=
  stripBlocksAux styleOpen styleClose 6 (l.length + 1) l

/-- The cleaned page text of `extractContent` before truncation: script
and style blocks removed, tags replaced by spaces, whitespace runs
collapsed, then trimmed. -/
def cleanedPageText (html : String) : List Char :=
  jsTrim (collapseWs (stripTags (stripStyleBlocks (stripScriptBlocks html.data))))

/-- `extractContent` of the compile route: the cleaned text truncated by
`substring(0, 2000)` with the literal `...` appended. -/
def extractContent (html : String) : String :=
  ⟨(cleanedPageText html).take 2000 ++ ['.', '.', '.']⟩

/-- Scanner for a first-match capture regex of the shape
`<tag[^>]*>([^<]+)</tag>` (case-insensitive): after the opener, skip the
attribute run up to the first `>`, capture the non-empty run of non-`<`
characters, and require the closing literal; otherwise resume at the next
position. -/
def findTagCapture (tagOpen tagClose : List Char) : List Char → Option (List Char)
  | [] => none
  | c :: rest =>
    if startsWithCI tagOpen (c :: rest) then
      let afterOpen := ((c :: rest).drop tagOpen.length).dropWhile (fun d => d != '>')
      match afterOpen with
      | _ :: rest2 =>
        let cap := rest2.takeWhile (fun d => d != '<')
        if !cap.isEmpty && startsWithCI tagClose (rest2.dropWhile (fun d => d != '<')) then
          some cap
        else findTagCapture tagOpen tagClose rest
      | [] => findTagCapture tagOpen tagClose rest
    else findTagCapture tagOpen tagClose rest

/-- Opening literal of the title regex of the compile route. -/
def titleOpen : List Char := ['<', 't', 'i', 't', 'l', 'e']

/-- Closing literal of the title regex. -/
def titleClose : List Char := ['<', '/', 't', 'i', 't', 'l', 'e', '>']

/-- Opening literal of the h1 regex. -/
def h1Open : List Char := ['<', 'h', '1']

/-- Closing literal of the h1 regex. -/
def h1Close : List Char := ['<', '/', 'h', '1', '>']

/-- `extractTitle` of the compile route: first `<title>` text, else first
`<h1>` text, else the literal `Documentation`; a capture that trims to
the empty string is falsy in JS and falls through. -/
def extractTitle (html : String) : String :=
  let titleMatch := (findTagCapture titleOpen titleClose html.data).map jsTrim
  let h1Match := (findTagCapture h1Open h1Close html.data).map jsTrim
  let fallback :=
    match h1Match with
    | some h => if h.isEmpty then "Documentation" else (⟨h⟩ : String)
    | none => "Documentation"
  match titleMatch with
  | some t => if t.isEmpty then fallback else (⟨t⟩ : String)
  | none => fallback

/-- The `metadata` object of a successful compile response. -/
structure CompileMetadata where
  title : String
  sourceUrl : String
  compiledAt : String
  totalPages : Nat

/-- The JSON body of a compile response: on success `content` and
`metadata` are present and `error` absent; on failure only `error` is
present. -/
structure CompileResponse where
  success : Bool
  content : Option String
  metadata : Option CompileMetadata
  error : Option String

/-- The compiled-document template literal of
`compileDocumentationSimple` (`now` is the ISO timestamp captured by
`new Date().toISOString()`). -/
def buildCompiledContent (title url now cleanContent : String) : String :=
  "# " ++ title ++ "\n\n**Source:** " ++ url ++
  "\n**Compiled for AI consumption**\n**Compiled:** " ++ now ++
  "\n\n---\n\n## Overview\n\nThis documentation has been compiled from " ++ url ++
  " for AI consumption.\n\n---\n\n" ++ cleanContent ++
  "\n\n---\n\n*Compiled with Doc Compiler for AI-friendly format*\n"

/-- `compileDocumentationSimple`: fetch the seed page; a non-ok status
throws `HTTP <status>: <statusText>`, a network failure propagates its
message; otherwise extract and assemble the document. -/
def compileDocumentationSimple (url now : String) (net : String → FetchOutcome) :
    Except String (String × CompileMetadata) :=
  match net url with
  | .networkError message => .error message
  | .response status statusText body =>
    if statusOk status then
      let title := extractTitle body
      let cleanContent := extractContent body
      .ok (buildCompiledContent title url now cleanContent, ⟨title, url, now, 1⟩)
    else .error ("HTTP " ++ renderNat status ++ ": " ++ statusText)

/-- The compile API handler on a validated POST request: a successful
compilation is returned with `success: true`, `content` and `metadata`;
a thrown error is caught and returned as `success: false` with only the
error message. -/
def compileHandler (url now : String) (net : String → FetchOutcome) : CompileResponse :=
  match compileDocumentationSimple url now net with
  | .ok result => ⟨true, some result.1, some result.2, none⟩
  | .error e => ⟨false, none, none, some e⟩

/-- The URL set the compile operation passes to fetch/extract: the
simplified compile route fetches exactly the seed page. -/
def compileFetchUrls (url : String) : List String := [url]

/-! ### General list helpers -/

theorem any_false_of {α} {p : α → Bool} :
    ∀ {l : List α}, (∀ x ∈ l, p x = false) → l.any p = false := by
  intro l h
  induction l with
  | nil => rfl
  | cons x xs ih =>
    simp only [List.any_cons, h x (List.mem_cons_self x xs),
      ih (fun y hy => h y (List.mem_cons_of_mem x hy)), Bool.or_self]

theorem map_eq_self_of {α} {f : α → α} :
    ∀ {l : List α}, (∀ x ∈ l, f x = x) → l.map f = l := by
  intro l h
  induction l with
  | nil => rfl
  | cons x xs ih =>
    simp only [List.map_cons, h x (List.mem_cons_self x xs),
      ih (fun y hy => h y (List.mem_cons_of_mem x hy))]

theorem filter_eq_self_of {α} {p : α → Bool} :
    ∀ {l : List α}, (∀ x ∈ l, p x = true) → l.filter p = l := by
  intro l h
  induction l with
  | nil => rfl
  | cons x xs ih =>
    simp only [List.filter_cons, h x (List.mem_cons_self x xs), if_true,
      ih (fun y hy => h y (List.mem_cons_of_mem x hy))]

theorem filter_eq_nil_of {α} {p : α → Bool} :
    ∀ {l : List α}, (∀ x ∈ l, p x = false) → l.filter p = [] := by
  intro l h
  induction l with
  | nil => rfl
  | cons x xs ih =>
    simp only [List.filter_cons, h x (List.mem_cons_self x xs), Bool.false_eq_true,
      if_false, ih (fun y hy => h y (List.mem_cons_of_mem x hy))]

theorem takeWhile_append_of_all {α} {p : α → Bool} :
    ∀ {l1 : List α} (l2 : List α), (∀ x ∈ l1, p x = true) →
      (l1 ++ l2).takeWhile p = l1 ++ l2.takeWhile p := by
  intro l1 l2 h
  induction l1 with
  | nil => rfl
  | cons x xs ih =>
    simp only [List.cons_append, List.takeWhile_cons,
      h x (List.mem_cons_self x xs), if_true,
      ih (fun y hy => h y (List.mem_cons_of_mem x hy))]

theorem dropWhile_append_of_all {α} {p : α → Bool} :
    ∀ {l1 : List α} (l2 : List α), (∀ x ∈ l1, p x = true) →
      (l1 ++ l2).dropWhile p = l2.dropWhile p := by
  intro l1 l2 h
  induction l1 with
  | nil => rfl
  | cons x xs ih =>
    simp only [List.cons_append, List.dropWhile_cons,
      h x (List.mem_cons_self x xs), if_true,
      ih (fun y hy => h y (List.mem_cons_of_mem x hy))]

theorem takeWhile_all_of {α} {p : α → Bool} :
    ∀ {l : List α}, (∀ x ∈ l, p x = true) → l.takeWhile p = l := by
  intro l h
  have h2 : (l ++ []).takeWhile p = l ++ ([] : List α).takeWhile p :=
    takeWhile_append_of_all [] h
  simpa using h2

theorem dropWhile_all_of {α} {p : α → Bool} :
    ∀ {l : List α}, (∀ x ∈ l, p x = true) → l.dropWhile p = [] := by
  intro l h
  have h2 : (l ++ []).dropWhile p = ([] : List α).dropWhile p :=
    dropWhile_append_of_all [] h
  simpa using h2

theorem any_congr_of {α} {p q : α → Bool} :
    ∀ {l : List α}, (∀ x ∈ l, p x = q x) → l.any p = l.any q := by
  intro l h
  induction l with
  | nil => rfl
  | cons x xs ih =>
    simp only [List.any_cons, h x (List.mem_cons_self x xs),
      ih (fun y hy => h y (List.mem_cons_of_mem x hy))]

theorem filter_congr_of {α} {p q : α → Bool} :
    ∀ {l : List α}, (∀ x ∈ l, p x = q x) → l.filter p = l.filter q := by
  intro l h
  induction l with
  | nil => rfl
  | cons x xs ih =>
    simp only [List.filter_cons, h x (List.mem_cons_self x xs),
      ih (fun y hy => h y (List.mem_cons_of_mem x hy))]

theorem any_filter_eq {α} (p q : α → Bool) :
    ∀ (l : List α), (l.filter p).any q = l.any (fun x => p x && q x) := by
  intro l
  induction l with
  | nil => rfl
  | cons x xs ih =>
    by_cases hp : p x = true
    · simp [List.filter_cons, hp, List.any_cons, ih]
    · simp only [Bool.not_eq_true] at hp
      simp [List.filter_cons, hp, List.any_cons, ih]

theorem find?_isSome_eq_any {α} (p : α → Bool) :
    ∀ (l : List α), (l.find? p).isSome = l.any p := by
  intro l
  induction l with
  | nil => rfl
  | cons x xs ih =>
    by_cases hp : p x = true
    · simp [List.find?_cons, hp]
    · simp only [Bool.not_eq_true] at hp
      simp [List.find?_cons, hp, ih]

theorem isPrefixOf_append_self {l m : List Char} : l.isPrefixOf (l ++ m) = true := by
  induction l with
  | nil => simp [List.isPrefixOf]
  | cons x xs ih => simp [List.isPrefixOf, ih]

theorem string_data_append (s t : String) : (s ++ t).data = s.data ++ t.data := by
  cases s; cases t; rfl

/-! ### Decimal rendering and parsing -/

theorem natDigitsAux_congr (f1 : Nat) : ∀ (f2 n : Nat), n < f1 → n < f2 →
    natDigitsAux f1 n = natDigitsAux f2 n := by
  induction f1 with
  | zero => intro f2 n h1 _; omega
  | succ g ih =>
    intro f2 n h1 h2
    cases f2 with
    | zero => omega
    | succ h =>
      simp only [natDigitsAux]
      by_cases hn : n < 10
      · simp [hn]
      · have hd : n / 10 < n := Nat.div_lt_self (by omega) (by omega)
        simp only [if_neg hn]
        rw [ih h (n / 10) (by omega) (by omega)]

theorem natDigits_eq (n : Nat) :
    natDigits n =
      if n < 10 then [digitChar n] else natDigits (n / 10) ++ [digitChar (n % 10)] := by
  by_cases hn : n < 10
  · rw [if_pos hn]
    conv_lhs => rw [natDigits]
    simp only [natDigitsAux, hn, if_true]
  · have hd : n / 10 < n := Nat.div_lt_self (by omega) (by omega)
    rw [if_neg hn]
    conv_lhs => rw [natDigits]
    have hstep : natDigitsAux (n + 1) n = natDigitsAux n (n / 10) ++ [digitChar (n % 10)] := by
      simp only [natDigitsAux, hn, if_false]
    rw [hstep, natDigits,
      natDigitsAux_congr n (n / 10 + 1) (n / 10) (by omega) (by omega)]

theorem digitChar_toNat {d : Nat} (h : d < 10) : (digitChar d).toNat = 48 + d := by
  interval_cases d <;> rfl

theorem digitChar_facts {d : Nat} (h : d < 10) :
    (digitChar d).isDigit = true ∧ Char.toLower (digitChar d) = digitChar d ∧
    (digitChar d == 'k') = false ∧ (digitChar d == '.') = false := by
  interval_cases d <;> exact ⟨rfl, rfl, rfl, rfl⟩

theorem natDigits_mem_facts (n : Nat) : ∀ c ∈ natDigits n,
    c.isDigit = true ∧ Char.toLower c = c ∧ (c == 'k') = false ∧ (c == '.') = false := by
  induction n using Nat.strong_induction_on with
  | _ n ih =>
    intro c hc
    rw [natDigits_eq] at hc
    by_cases hn : n < 10
    · rw [if_pos hn] at hc
      simp only [List.mem_singleton] at hc
      subst hc
      exact digitChar_facts hn
    · rw [if_neg hn] at hc
      rcases List.mem_append.mp hc with h | h
      · exact ih (n / 10) (Nat.div_lt_self (by omega) (by omega)) c h
      · simp only [List.mem_singleton] at h
        subst h
        exact digitChar_facts (Nat.mod_lt n (by omega))

theorem parseDigits_gen (n : Nat) : ∀ acc : Nat,
    (natDigits n).foldl (fun a c => a * 10 + (c.toNat - 48)) acc =
      acc * 10 ^ (natDigits n).length + n := by
  induction n using Nat.strong_induction_on with
  | _ n ih =>
    intro acc
    rw [natDigits_eq]
    by_cases hn : n < 10
    · rw [if_pos hn]
      simp only [List.foldl_cons, List.foldl_nil, List.length_singleton, pow_one]
      rw [digitChar_toNat hn]
      omega
    · rw [if_neg hn]
      rw [List.foldl_append, List.length_append]
      rw [ih (n / 10) (Nat.div_lt_self (by omega) (by omega)) acc]
      simp only [List.foldl_cons, List.foldl_nil, List.length_singleton]
      rw [digitChar_toNat (Nat.mod_lt n (by omega))]
      rw [show 48 + n % 10 - 48 = n % 10 from by omega]
      rw [pow_succ, ← Nat.mul_assoc, Nat.add_mul, Nat.add_assoc]
      congr 1
      omega

theorem parseDigits_natDigits (n : Nat) : parseDigits (natDigits n) = n := by
  have := parseDigits_gen n 0
  simpa [parseDigits] using this

/-! ### The round trip from `formatSize` through the aggregation parser -/

theorem parseSize_formatSize_lt {n : Nat} (hn : n < 1000) :
    parseSize (formatSize n) = n := by
  have hdata : (formatSize n).data = natDigits n ++ [' ', 'c', 'h', 'a', 'r', 's'] := by
    unfold formatSize
    rw [if_pos hn, string_data_append]
    rfl
  simp only [parseSize, hdata, List.map_append, List.any_append]
  rw [map_eq_self_of (fun c hc => (natDigits_mem_facts n c hc).2.1),
    show ([' ', 'c', 'h', 'a', 'r', 's'].map Char.toLower) = [' ', 'c', 'h', 'a', 'r', 's'] from by decide,
    any_false_of (fun c hc => (natDigits_mem_facts n c hc).2.2.1),
    show ([' ', 'c', 'h', 'a', 'r', 's'].any (fun c => c == 'k')) = false from by decide]
  rw [if_neg (by simp)]
  rw [List.filter_append,
    filter_eq_self_of (fun c hc => (natDigits_mem_facts n c hc).1),
    show ([' ', 'c', 'h', 'a', 'r', 's'].filter (fun c => c.isDigit)) = [] from by decide]
  rw [List.append_nil]
  exact parseDigits_natDigits n

theorem parseSize_wholek (m : Nat) : parseSize (renderNat m ++ "k chars") = m * 1000 := by
  have hdata : (renderNat m ++ "k chars").data =
      natDigits m ++ ['k', ' ', 'c', 'h', 'a', 'r', 's'] := by
    rw [string_data_append]
    rfl
  simp only [parseSize, hdata, List.map_append, List.any_append]
  rw [map_eq_self_of (fun c hc => (natDigits_mem_facts m c hc).2.1),
    show (['k', ' ', 'c', 'h', 'a', 'r', 's'].map Char.toLower) = ['k', ' ', 'c', 'h', 'a', 'r', 's'] from by decide,
    any_false_of (fun c hc => (natDigits_mem_facts m c hc).2.2.1),
    show (['k', ' ', 'c', 'h', 'a', 'r', 's'].any (fun c => c == 'k')) = true from by decide]
  rw [if_pos (by simp)]
  rw [List.filter_append,
    filter_eq_self_of (fun c hc => by simp [(natDigits_mem_facts m c hc).1]),
    show (['k', ' ', 'c', 'h', 'a', 'r', 's'].filter (fun c => c.isDigit || c == '.')) = [] from by decide,
    List.append_nil]
  have hall : ∀ c ∈ natDigits m, (c != '.') = true := fun c hc => by
    simp [bne, (natDigits_mem_facts m c hc).2.2.2]
  simp only [parseKTimes1000]
  rw [takeWhile_all_of hall, dropWhile_all_of hall]
  simp only [List.drop_nil, List.takeWhile_nil, List.take_nil, List.nil_append,
    List.length_nil]
  rw [parseDigits_natDigits]
  rfl

theorem parseSize_fractionk (a b : Nat) (hb : b < 10) :
    parseSize (renderNat a ++ "." ++ renderNat b ++ "k chars") = a * 1000 + b * 100 := by
  have hb1 : natDigits b = [digitChar b] := by rw [natDigits_eq, if_pos hb]
  have hdata : (renderNat a ++ "." ++ renderNat b ++ "k chars").data =
      ((natDigits a ++ ['.']) ++ [digitChar b]) ++ ['k', ' ', 'c', 'h', 'a', 'r', 's'] := by
    rw [string_data_append, string_data_append, string_data_append]
    show ((natDigits a ++ ['.']) ++ natDigits b) ++ ['k', ' ', 'c', 'h', 'a', 'r', 's'] = _
    rw [hb1]
  simp only [parseSize, hdata, List.map_append, List.any_append, List.filter_append]
  rw [map_eq_self_of (fun c hc => (natDigits_mem_facts a c hc).2.1),
    show (['.'].map Char.toLower) = ['.'] from by decide,
    show ([digitChar b].map Char.toLower) = [digitChar b] from by
      simp [(digitChar_facts hb).2.1],
    show (['k', ' ', 'c', 'h', 'a', 'r', 's'].map Char.toLower) = ['k', ' ', 'c', 'h', 'a', 'r', 's'] from by decide]
  rw [any_false_of (fun c hc => (natDigits_mem_facts a c hc).2.2.1),
    show (['.'].any (fun c => c == 'k')) = false from by decide,
    show ([digitChar b].any (fun c => c == 'k')) = false from by
      simp [(digitChar_facts hb).2.2.1],
    show (['k', ' ', 'c', 'h', 'a', 'r', 's'].any (fun c => c == 'k')) = true from by decide]
  rw [if_pos (by simp)]
  rw [filter_eq_self_of (fun c hc => by simp [(natDigits_mem_facts a c hc).1]),
    show (['.'].filter (fun c => c.isDigit || c == '.')) = ['.'] from by decide,
    show ([digitChar b].filter (fun c => c.isDigit || c == '.')) = [digitChar b] from by
      simp [(digitChar_facts hb).1],
    show (['k', ' ', 'c', 'h', 'a', 'r', 's'].filter (fun c => c.isDigit || c == '.')) = [] from by decide,
    List.append_nil]
  rw [List.append_assoc]
  simp only [List.cons_append, List.nil_append]
  have hall : ∀ c ∈ natDigits a, (c != '.') = true := fun c hc => by
    simp [bne, (natDigits_mem_facts a c hc).2.2.2]
  simp only [parseKTimes1000]
  rw [takeWhile_append_of_all _ hall, dropWhile_append_of_all _ hall]
  have hdne : ((digitChar b) != '.') = true := by
    simp [bne, (digitChar_facts hb).2.2.2]
  rw [show ((['.', digitChar b] : List Char).takeWhile (fun c => c != '.')) = [] from by
      simp [List.takeWhile_cons, bne],
    show ((['.', digitChar b] : List Char).dropWhile (fun c => c != '.')) = ['.', digitChar b] from by
      simp [List.dropWhile_cons, bne],
    List.append_nil, parseDigits_natDigits]
  simp only [List.drop_succ_cons, List.drop_zero]
  rw [show (([digitChar b] : List Char).takeWhile (fun c => c != '.')) = [digitChar b] from by
    simp [List.takeWhile_cons, hdne]]
  rw [show (([digitChar b] : List Char).take 3) = [digitChar b] from rfl]
  rw [show (3 - ([digitChar b] : List Char).length) = 2 from rfl]
  rw [show (List.replicate 2 '0') = ['0', '0'] from rfl]
  rw [show ([digitChar b] ++ ['0', '0'] : List Char) = [digitChar b, '0', '0'] from rfl]
  have hpd : parseDigits [digitChar b, '0', '0'] = b * 100 := by
    simp only [parseDigits, List.foldl_cons, List.foldl_nil]
    rw [digitChar_toNat hb, show ('0' : Char).toNat = 48 from rfl]
    omega
  rw [hpd]

theorem parseSize_formatSize (n : Nat) : parseSize (formatSize n) = displayedMagnitude n := by
  by_cases h1 : n < 1000
  · rw [parseSize_formatSize_lt h1, displayedMagnitude, if_pos h1]
  · by_cases h2 : n < 10000
    · rw [show displayedMagnitude n = ((n + 50) / 100) * 100 from by
        rw [displayedMagnitude, if_neg h1, if_pos h2]]
      rw [show formatSize n = renderTenths ((n + 50) / 100) ++ "k chars" from by
        rw [formatSize, if_neg h1, if_pos h2]]
      by_cases hr : (n + 50) / 100 % 10 = 0
      · rw [show renderTenths ((n + 50) / 100) = renderNat ((n + 50) / 100 / 10) from by
          rw [renderTenths, if_pos (by simpa using hr)]]
        rw [parseSize_wholek]
        omega
      · rw [show renderTenths ((n + 50) / 100) =
            renderNat ((n + 50) / 100 / 10) ++ "." ++ renderNat ((n + 50) / 100 % 10) from by
          rw [renderTenths, if_neg (by simpa using hr)]]
        rw [parseSize_fractionk _ _ (Nat.mod_lt _ (by omega))]
        omega
    · rw [show displayedMagnitude n = ((n + 500) / 1000) * 1000 from by
        rw [displayedMagnitude, if_neg h1, if_neg h2]]
      rw [show formatSize n = renderNat ((n + 500) / 1000) ++ "k chars" from by
        rw [formatSize, if_neg h1, if_neg h2]]
      exact parseSize_wholek _

theorem displayedMagnitude_mono {a b : Nat} (h : a ≤ b) :
    displayedMagnitude a ≤ displayedMagnitude b := by
  unfold displayedMagnitude
  split_ifs <;> omega

theorem totalEstimatedChars_gen (pages : List PageInfo) : ∀ a : Nat,
    pages.foldl (fun sum page => sum + parseSize page.estimatedSize) a =
      a + (pages.map (fun p => parseSize p.estimatedSize)).sum := by
  induction pages with
  | nil => intro a; simp
  | cons p ps ih =>
    intro a
    simp only [List.foldl_cons, List.map_cons, List.sum_cons, ih (a + parseSize p.estimatedSize)]
    omega

theorem totalEstimatedChars_eq_sum (pages : List PageInfo) :
    totalEstimatedChars pages = (pages.map (fun p => parseSize p.estimatedSize)).sum := by
  have := totalEstimatedChars_gen pages 0
  simpa [totalEstimatedChars] using this

/-- C1 counterexample: the claim renders the band `1000 ≤ chars < 10000`
with the fractional digit obtained by truncation and always in `<n.n>`
shape, but the code rounds (`Math.round(chars/100)/10`): at 1550 the code
displays `1.6k chars` while the truncated one-decimal form is
`1.5k chars`, and at 2000 the code displays `2k chars`, which has no
fractional digit at all. -/
theorem formatSize_truncation_counterexample :
    formatSize 1550 = "1.6k chars" ∧ truncatedTenthsForm 1550 = "1.5k chars" ∧
    formatSize 1550 ≠ truncatedTenthsForm 1550 ∧ formatSize 2000 = "2k chars" := by
  refine ⟨by decide, by decide, by decide, by decide⟩

/-- C1 (amended): `formatSize chars` is `"<chars> chars"` for
`chars < 1000`; for `1000 ≤ chars < 10000` it displays `chars` ROUNDED
(half away from zero) to the nearest multiple of 100 characters, shown in
units of `k` with one fractional digit which is omitted when zero (not
truncated, and not always of `<n.n>` shape); for `chars ≥ 10000` it
displays `chars` rounded to the nearest whole thousand as `"<n>k chars"`;
and the magnitude displayed (the value the string denotes, which the
aggregation parser `parseSize` recovers) is monotone in `chars`. -/
theorem formatSize_rounded_bands_monotone (c1 c2 n : Nat) :
    (c1 ≤ c2 → parseSize (formatSize c1) ≤ parseSize (formatSize c2)) ∧
    parseSize (formatSize n) = displayedMagnitude n ∧
    (n < 1000 → formatSize n = renderNat n ++ " chars" ∧ displayedMagnitude n = n) ∧
    (1000 ≤ n → n < 10000 →
      formatSize n = renderTenths ((n + 50) / 100) ++ "k chars" ∧
      displayedMagnitude n % 100 = 0 ∧ n ≤ displayedMagnitude n + 50 ∧
      displayedMagnitude n ≤ n + 50) ∧
    (10000 ≤ n →
      formatSize n = renderNat ((n + 500) / 1000) ++ "k chars" ∧
      displayedMagnitude n % 1000 = 0 ∧ n ≤ displayedMagnitude n + 499 ∧
      displayedMagnitude n ≤ n + 500) ∧
    formatSize 950 = "950 chars" ∧ formatSize 4500 = "4.5k chars" ∧
    formatSize 125000 = "125k chars" ∧ formatSize 1550 = "1.6k chars" ∧
    formatSize 1950 = "2k chars" := by
  refine ⟨?_, parseSize_formatSize n, ?_, ?_, ?_, by decide, by decide, by decide,
    by decide, by decide⟩
  · intro h
    rw [parseSize_formatSize c1, parseSize_formatSize c2]
    exact displayedMagnitude_mono h
  · intro h1
    refine ⟨by rw [formatSize, if_pos h1], by rw [displayedMagnitude, if_pos h1]⟩
  · intro h1 h2
    have hm : displayedMagnitude n = ((n + 50) / 100) * 100 := by
      rw [displayedMagnitude, if_neg (by omega), if_pos h2]
    refine ⟨by rw [formatSize, if_neg (by omega), if_pos h2], ?_, ?_, ?_⟩ <;> rw [hm] <;> omega
  · intro h1
    have hm : displayedMagnitude n = ((n + 500) / 1000) * 1000 := by
      rw [displayedMagnitude, if_neg (by omega), if_neg (by omega)]
    refine ⟨by rw [formatSize, if_neg (by omega), if_neg (by omega)], ?_, ?_, ?_⟩ <;>
      rw [hm] <;> omega

/-- C1 witness: the amended theorem applied at concrete inputs in each
band, with every hypothesis discharged. -/
theorem formatSize_rounded_bands_monotone_witness :
    parseSize (formatSize 1000) ≤ parseSize (formatSize 2000) ∧
    displayedMagnitude 950 = 950 ∧
    (displayedMagnitude 4500 % 100 = 0 ∧ 4500 ≤ displayedMagnitude 4500 + 50 ∧
      displayedMagnitude 4500 ≤ 4500 + 50) ∧
    displayedMagnitude 125000 % 1000 = 0 := by
  refine ⟨(formatSize_rounded_bands_monotone 1000 2000 0).1 (by omega), ?_, ?_, ?_⟩
  · exact ((formatSize_rounded_bands_monotone 0 0 950).2.2.1 (by omega)).2
  · have h := (formatSize_rounded_bands_monotone 0 0 4500).2.2.2.1 (by omega) (by omega)
    exact ⟨h.2.1, h.2.2.1, h.2.2.2⟩
  · exact ((formatSize_rounded_bands_monotone 0 0 125000).2.2.2.2.1 (by omega)).2.1

/-- C2: the discovery report's total size is `formatSize` of the sum of
the per-page sizes as recovered by the aggregator's own parser
(`parseSize`, which takes the numeric prefix and scales by 1000 on a `k`
suffix); on pages whose size strings were produced by `formatSize` the
parser recovers exactly the displayed magnitude of each page, so the
format round-trips up to the precision of the displayed band. -/
theorem estimatedTotalSize_parse_roundtrip (pages : List PageInfo) (sizes : List Nat)
    (url : String) (sm : Option (List String)) (m : MainPageInfo)
    (nav : Option (List String)) (po : String → Option PageInfo) (d : DiscoveryData) :
    totalEstimatedChars pages = (pages.map (fun p => parseSize p.estimatedSize)).sum ∧
    (pages.map (fun p => p.estimatedSize) = sizes.map formatSize →
      totalEstimatedChars pages = (sizes.map displayedMagnitude).sum) ∧
    (discoverDocumentationStructure url sm (some m) nav po = .ok d →
      d.estimatedTotalSize =
        formatSize (totalEstimatedChars
          ((discoverAnalyzedUrls url (sm.getD []) (nav.getD [])).filterMap po))) ∧
    (∀ k : Nat, parseSize (formatSize k) = displayedMagnitude k) := by
  refine ⟨totalEstimatedChars_eq_sum pages, ?_, ?_, parseSize_formatSize⟩
  · intro h
    rw [totalEstimatedChars_eq_sum pages]
    have h1 : pages.map (fun p => parseSize p.estimatedSize) =
        (pages.map (fun p => p.estimatedSize)).map parseSize := by
      rw [List.map_map]
      rfl
    rw [h1, h, List.map_map,
      show (parseSize ∘ formatSize) = displayedMagnitude from funext parseSize_formatSize]
  · intro h
    simp only [discoverDocumentationStructure] at h
    cases h
    rfl

/-- C2 witness: the aggregation identity evaluated on two concrete pages
whose size strings are `formatSize` images, and the report identity on a
concrete successful discovery. -/
theorem estimatedTotalSize_parse_roundtrip_witness :
    totalEstimatedChars
        [⟨"u1", "t1", "General Documentation", none, "950 chars"⟩,
         ⟨"u2", "t2", "General Documentation", none, "4.5k chars"⟩] =
      ([950, 4500].map displayedMagnitude).sum ∧
    (DiscoveryData.mk "https://a.com" "T" 0 [] (formatSize 0)).estimatedTotalSize =
      formatSize (totalEstimatedChars
        ((discoverAnalyzedUrls "https://a.com" [] []).filterMap (fun _ => none))) := by
  constructor
  · exact (estimatedTotalSize_parse_roundtrip
      [⟨"u1", "t1", "General Documentation", none, "950 chars"⟩,
       ⟨"u2", "t2", "General Documentation", none, "4.5k chars"⟩]
      [950, 4500] "x" none ⟨"T", ""⟩ none (fun _ => none)
      ⟨"x", "T", 0, [], ""⟩).2.1 (by decide)
  · exact (estimatedTotalSize_parse_roundtrip [] [] "https://a.com" none ⟨"T", ""⟩ none
      (fun _ => none) (DiscoveryData.mk "https://a.com" "T" 0 [] (formatSize 0))).2.2.1 rfl

/-! ### The categorizer -/

/-- C3: `categorizeUrl` is a total, deterministic, pure function of the
lowercased URL mapping every URL to one of the six fixed categories, with
first-matching-rule-wins priority API Reference, then Examples, then
Guides & Tutorials, then Getting Started, then Concepts, else General
Documentation; and the three example URLs categorize as stated. -/
theorem categorizeUrl_total_priority (url u v : String) :
    (categorizeUrl url = "API Reference" ∨ categorizeUrl url = "Examples" ∨
     categorizeUrl url = "Guides & Tutorials" ∨ categorizeUrl url = "Getting Started" ∨
     categorizeUrl url = "Concepts" ∨ categorizeUrl url = "General Documentation") ∧
    (jsToLower u = jsToLower v → categorizeUrl u = categorizeUrl v) ∧
    (ruleApiReference (jsToLower url) = true → categorizeUrl url = "API Reference") ∧
    (ruleApiReference (jsToLower url) = false → ruleExamples (jsToLower url) = true →
      categorizeUrl url = "Examples") ∧
    (ruleApiReference (jsToLower url) = false → ruleExamples (jsToLower url) = false →
      ruleGuides (jsToLower url) = true → categorizeUrl url = "Guides & Tutorials") ∧
    (ruleApiReference (jsToLower url) = false → ruleExamples (jsToLower url) = false →
      ruleGuides (jsToLower url) = false → ruleGettingStarted (jsToLower url) = true →
      categorizeUrl url = "Getting Started") ∧
    (ruleApiReference (jsToLower url) = false → ruleExamples (jsToLower url) = false →
      ruleGuides (jsToLower url) = false → ruleGettingStarted (jsToLower url) = false →
      ruleConcepts (jsToLower url) = true → categorizeUrl url = "Concepts") ∧
    (ruleApiReference (jsToLower url) = false → ruleExamples (jsToLower url) = false →
      ruleGuides (jsToLower url) = false → ruleGettingStarted (jsToLower url) = false →
      ruleConcepts (jsToLower url) = false → categorizeUrl url = "General Documentation") ∧
    categorizeUrl "https://x.com/api/widgets" = "API Reference" ∧
    categorizeUrl "https://x.com/guide/start" = "Guides & Tutorials" ∧
    categorizeUrl "https://x.com/blog/post" = "General Documentation" := by
  refine ⟨?_, ?_, ?_, ?_, ?_, ?_, ?_, ?_, by decide, by decide, by decide⟩
  · simp only [categorizeUrl]
    split_ifs <;> simp
  · intro h
    simp only [categorizeUrl, h]
  · intro h1
    simp [categorizeUrl, h1]
  · intro h1 h2
    simp [categorizeUrl, h1, h2]
  · intro h1 h2 h3
    simp [categorizeUrl, h1, h2, h3]
  · intro h1 h2 h3 h4
    simp [categorizeUrl, h1, h2, h3, h4]
  · intro h1 h2 h3 h4 h5
    simp [categorizeUrl, h1, h2, h3, h4, h5]
  · intro h1 h2 h3 h4 h5
    simp [categorizeUrl, h1, h2, h3, h4, h5]

/-- C3 witness: the purity and default-rule conjuncts applied at
concrete URLs, discharging the hypotheses. -/
theorem categorizeUrl_total_priority_witness :
    categorizeUrl "https://x.com/API/widgets" = categorizeUrl "https://x.com/api/widgets" ∧
    categorizeUrl "https://x.com/docs/setup" = "General Documentation" := by
  constructor
  · exact (categorizeUrl_total_priority "" "https://x.com/API/widgets"
      "https://x.com/api/widgets").2.1 (by decide)
  · exact (categorizeUrl_total_priority "https://x.com/docs/setup" "" "").2.2.2.2.2.2.2.1
      (by decide) (by decide) (by decide) (by decide) (by decide)

/-! ### Deduplication -/

theorem any_beq_iff {l : List String} {x : String} :
    (l.any (fun y => y == x) = true) ↔ x ∈ l := by
  simp [List.any_eq_true, beq_iff_eq]

theorem mem_dedupAux {a : String} : ∀ (l seen : List String),
    a ∈ dedupAux seen l ↔ (a ∈ l ∧ a ∉ seen) := by
  intro l
  induction l with
  | nil => intro seen; simp [dedupAux]
  | cons x xs ih =>
    intro seen
    simp only [dedupAux]
    by_cases h : seen.any (fun y => y == x) = true
    · have hx : x ∈ seen := any_beq_iff.mp h
      simp only [h, if_true, ih, List.mem_cons]
      constructor
      · tauto
      · rintro ⟨rfl | hmem, hns⟩
        · exact absurd hx hns
        · exact ⟨hmem, hns⟩
    · have hx : x ∉ seen := fun hmem => h (any_beq_iff.mpr hmem)
      have h' : seen.any (fun y => y == x) = false := Bool.eq_false_iff.mpr h
      simp only [h', Bool.false_eq_true, if_false, List.mem_cons, ih, List.mem_cons]
      constructor
      · rintro (rfl | ⟨hmem, hns⟩)
        · exact ⟨Or.inl rfl, hx⟩
        · exact ⟨Or.inr hmem, fun hs => hns (Or.inr hs)⟩
      · rintro ⟨rfl | hmem, hns⟩
        · exact Or.inl rfl
        · by_cases hax : a = x
          · exact Or.inl hax
          · refine Or.inr ⟨hmem, fun hc => ?_⟩
            rcases hc with rfl | hc2
            · exact hax rfl
            · exact hns hc2

theorem nodup_dedupAux : ∀ (l seen : List String), (dedupAux seen l).Nodup := by
  intro l
  induction l with
  | nil => intro seen; simp [dedupAux]
  | cons x xs ih =>
    intro seen
    simp only [dedupAux]
    by_cases h : seen.any (fun y => y == x) = true
    · simp only [h, if_true]
      exact ih seen
    · have h' : seen.any (fun y => y == x) = false := Bool.eq_false_iff.mpr h
      simp only [h', Bool.false_eq_true, if_false, List.nodup_cons]
      refine ⟨fun hmem => ?_, ih (x :: seen)⟩
      exact ((mem_dedupAux xs (x :: seen)).mp hmem).2 (List.mem_cons_self x seen)

theorem dedupAux_eq_self : ∀ (l seen : List String), l.Nodup → (∀ a ∈ l, a ∉ seen) →
    dedupAux seen l = l := by
  intro l
  induction l with
  | nil => intro seen _ _; rfl
  | cons x xs ih =>
    intro seen hnd hni
    have hx : x ∉ seen := hni x (List.mem_cons_self x xs)
    have h' : seen.any (fun y => y == x) = false := by
      rw [← Bool.not_eq_true]
      exact fun hc => hx (any_beq_iff.mp hc)
    simp only [dedupAux, h', Bool.false_eq_true, if_false]
    congr 1
    refine ih (x :: seen) (List.Nodup.of_cons hnd) (fun a ha hc => ?_)
    rcases List.mem_cons.mp hc with rfl | hc2
    · exact (List.nodup_cons.mp hnd).1 ha
    · exact hni a (List.mem_cons_of_mem x ha) hc2

theorem dedupAux_sublist : ∀ (l seen : List String), (dedupAux seen l).Sublist l := by
  intro l
  induction l with
  | nil => intro seen; simp [dedupAux]
  | cons x xs ih =>
    intro seen
    simp only [dedupAux]
    by_cases h : seen.any (fun y => y == x) = true
    · simp only [h, if_true]
      exact (ih seen).cons x
    · have h' : seen.any (fun y => y == x) = false := Bool.eq_false_iff.mpr h
      simp only [h', Bool.false_eq_true, if_false]
      exact (ih (x :: seen)).cons₂ x

theorem jsDedup_cons (x : String) (l : List String) :
    jsDedup (x :: l) = x :: dedupAux [x] l := by
  simp [jsDedup, dedupAux]

/-- C6: the candidate list `[seedUrl] ++ sitemapUrls ++ navigationUrls`
deduplicated by exact string equality keeping first occurrences has the
seed first, preserves insertion order (it is a sublist of the input),
keeps exactly the input's elements, is duplicate-free and deduplicating
it again is the identity. -/
theorem candidateUrls_dedup_properties (seed : String) (sitemapUrls navUrls : List String) :
    allCandidateUrls seed sitemapUrls navUrls = jsDedup (seed :: (sitemapUrls ++ navUrls)) ∧
    (allCandidateUrls seed sitemapUrls navUrls).head? = some seed ∧
    seed ∈ allCandidateUrls seed sitemapUrls navUrls ∧
    jsDedup (allCandidateUrls seed sitemapUrls navUrls) =
      allCandidateUrls seed sitemapUrls navUrls ∧
    (allCandidateUrls seed sitemapUrls navUrls).Sublist (seed :: (sitemapUrls ++ navUrls)) ∧
    (∀ a, a ∈ allCandidateUrls seed sitemapUrls navUrls ↔
      a ∈ seed :: (sitemapUrls ++ navUrls)) ∧
    (allCandidateUrls seed sitemapUrls navUrls).Nodup := by
  have hform : allCandidateUrls seed sitemapUrls navUrls =
      seed :: dedupAux [seed] (sitemapUrls ++ navUrls) :=
    jsDedup_cons seed (sitemapUrls ++ navUrls)
  refine ⟨rfl, ?_, ?_, ?_, ?_, ?_, ?_⟩
  · rw [hform]; rfl
  · rw [hform]; exact List.mem_cons_self _ _
  · exact dedupAux_eq_self _ [] (nodup_dedupAux _ []) (by intro a _; simp)
  · exact dedupAux_sublist _ []
  · intro a
    rw [show allCandidateUrls seed sitemapUrls navUrls =
      dedupAux [] (seed :: (sitemapUrls ++ navUrls)) from rfl, mem_dedupAux]
    simp
  · exact nodup_dedupAux _ []

/-- C7: the URL set passed to per-page fetch/extract is the deduplicated
candidate list truncated to its first 50 entries in the discover
operation, and the (singleton) seed list in the compile operation, which
is within the 15-entry cap; in both the seed URL is present and first. -/
theorem fetch_set_caps (url : String) (sitemapUrls navUrls : List String) :
    discoverAnalyzedUrls url sitemapUrls navUrls =
      (allCandidateUrls url sitemapUrls navUrls).take 50 ∧
    (discoverAnalyzedUrls url sitemapUrls navUrls).length ≤ 50 ∧
    (discoverAnalyzedUrls url sitemapUrls navUrls).head? = some url ∧
    url ∈ discoverAnalyzedUrls url sitemapUrls navUrls ∧
    compileFetchUrls url = [url] ∧
    compileFetchUrls url = (jsDedup [url]).take 15 ∧
    (compileFetchUrls url).length ≤ 15 ∧
    (compileFetchUrls url).head? = some url := by
  have hform : discoverAnalyzedUrls url sitemapUrls navUrls =
      url :: (dedupAux [url] (sitemapUrls ++ navUrls)).take 49 := by
    rw [discoverAnalyzedUrls, allCandidateUrls, jsDedup_cons, List.take_succ_cons]
  refine ⟨rfl, ?_, ?_, ?_, rfl, rfl, by simp [compileFetchUrls], rfl⟩
  · rw [discoverAnalyzedUrls]
    exact List.length_take_le 50 _
  · rw [hform]; rfl
  · rw [hform]; exact List.mem_cons_self _ _

/-! ### Failure isolation in the discover operation -/

theorem filterMap_agree_except {po f : String → Option PageInfo} {u : String}
    (hu : po u = none) (hagree : ∀ v, v ≠ u → po v = f v) :
    ∀ l : List String, l.filterMap po = (l.filter (fun v => v != u)).filterMap f := by
  intro l
  induction l with
  | nil => rfl
  | cons x xs ih =>
    by_cases hx : x = u
    · subst hx
      simp only [List.filterMap_cons, hu, List.filter_cons, bne_self_eq_false,
        Bool.false_eq_true, if_false, ih]
    · have hpo : po x = f x := hagree x hx
      have hne : (x != u) = true := by simpa [bne_iff_ne] using hx
      cases hfx : f x with
      | none =>
        simp only [List.filterMap_cons, hpo, hfx, List.filter_cons, hne, if_true, ih]
      | some b =>
        simp only [List.filterMap_cons, hpo, hfx, List.filter_cons, hne, if_true, ih]

/-- C5: a rejected sitemap or navigation strategy contributes only an
empty list to discovery; the failure of any single page analysis removes
exactly that page from the analysed set and the request still succeeds;
only the failure of the main-page metadata fetch fails the whole discover
request. -/
theorem discover_failure_isolation (url : String) (sm : Option (List String))
    (m : MainPageInfo) (nav : Option (List String))
    (po f : String → Option PageInfo) (u : String) :
    discoverDocumentationStructure url sm none nav po =
      .error "Failed to fetch main page information" ∧
    (∃ d, discoverDocumentationStructure url sm (some m) nav po = .ok d) ∧
    discoverDocumentationStructure url none (some m) none po =
      discoverDocumentationStructure url (some []) (some m) (some []) po ∧
    (po u = none → (∀ v, v ≠ u → po v = f v) →
      (discoverAnalyzedUrls url (sm.getD []) (nav.getD [])).filterMap po =
        ((discoverAnalyzedUrls url (sm.getD []) (nav.getD [])).filter
          (fun v => v != u)).filterMap f) := by
  exact ⟨rfl, ⟨_, rfl⟩, rfl, fun hu hagree => filterMap_agree_except hu hagree _⟩

/-- C5 witness: the fatal main-page outcome and the single-page isolation
equation at concrete inputs. -/
theorem discover_failure_isolation_witness :
    discoverDocumentationStructure "https://a.com" (some ["https://a.com/docs"]) none
      (some []) (fun _ => none) = .error "Failed to fetch main page information" ∧
    (discoverAnalyzedUrls "https://a.com" ["https://a.com/docs"] []).filterMap
        (fun v => if v = "https://a.com"
          then some (⟨v, "T", "General Documentation", none, "10 chars"⟩ : PageInfo)
          else none) =
      ((discoverAnalyzedUrls "https://a.com" ["https://a.com/docs"] []).filter
          (fun v => v != "https://a.com/docs")).filterMap
        (fun v => if v = "https://a.com"
          then some (⟨v, "T", "General Documentation", none, "10 chars"⟩ : PageInfo)
          else none) := by
  refine ⟨(discover_failure_isolation "https://a.com" (some ["https://a.com/docs"])
      ⟨"T", ""⟩ (some []) (fun _ => none) (fun _ => none) "u").1,
    (discover_failure_isolation "https://a.com" (some ["https://a.com/docs"])
      ⟨"T", ""⟩ (some [])
      (fun v => if v = "https://a.com"
        then some (⟨v, "T", "General Documentation", none, "10 chars"⟩ : PageInfo)
        else none)
      (fun v => if v = "https://a.com"
        then some (⟨v, "T", "General Documentation", none, "10 chars"⟩ : PageInfo)
        else none)
      "https://a.com/docs").2.2.2 (by rfl) (fun v _ => rfl)⟩

/-! ### The sitemap strategy -/

theorem discoverSitemapLoop_cons_ok {net : String → FetchOutcome} {u : String}
    {us : List String} {s : Nat} {t b : String}
    (h1 : net u = .response s t b) (h2 : statusOk s = true) :
    discoverSitemapLoop net (u :: us) = (extractUrlsFromSitemap b).filter sitemapUrlFilter := by
  simp only [discoverSitemapLoop, h1, h2, if_true]

theorem discoverSitemapLoop_cons_bad {net : String → FetchOutcome} {u : String}
    {us : List String} (h : probeBad (net u) = true) :
    discoverSitemapLoop net (u :: us) = discoverSitemapLoop net us := by
  cases hn : net u with
  | response s t b =>
    have hs : statusOk s = false := by
      have := h
      rw [hn] at this
      simpa [probeBad] using this
    simp only [discoverSitemapLoop, hn, hs, Bool.false_eq_true, if_false]
  | networkError m => simp only [discoverSitemapLoop, hn]

/-- C8: the sitemap strategy probes `{origin}/sitemap.xml`,
`{origin}/sitemap_index.xml` and `{origin}/docs/sitemap.xml` in that
order; the result is the (filtered) `<loc>` URLs of the first probe that
responds 2xx, never merging across sitemaps; a fetch failure, timeout or
non-2xx response advances silently to the next candidate; exhausting all
three yields an empty list, not an error. -/
theorem discoverSitemap_first_success (origin : String) (net : String → FetchOutcome) :
    (∀ s t b, net (origin ++ "/sitemap.xml") = .response s t b → statusOk s = true →
      discoverSitemap origin net = (extractUrlsFromSitemap b).filter sitemapUrlFilter) ∧
    (probeBad (net (origin ++ "/sitemap.xml")) = true →
      ∀ s t b, net (origin ++ "/sitemap_index.xml") = .response s t b → statusOk s = true →
      discoverSitemap origin net = (extractUrlsFromSitemap b).filter sitemapUrlFilter) ∧
    (probeBad (net (origin ++ "/sitemap.xml")) = true →
      probeBad (net (origin ++ "/sitemap_index.xml")) = true →
      ∀ s t b, net (origin ++ "/docs/sitemap.xml") = .response s t b → statusOk s = true →
      discoverSitemap origin net = (extractUrlsFromSitemap b).filter sitemapUrlFilter) ∧
    (probeBad (net (origin ++ "/sitemap.xml")) = true →
      probeBad (net (origin ++ "/sitemap_index.xml")) = true →
      probeBad (net (origin ++ "/docs/sitemap.xml")) = true →
      discoverSitemap origin net = []) := by
  refine ⟨?_, ?_, ?_, ?_⟩
  · intro s t b h1 h2
    rw [discoverSitemap, sitemapProbeUrls, discoverSitemapLoop_cons_ok h1 h2]
  · intro hb1 s t b h1 h2
    rw [discoverSitemap, sitemapProbeUrls, discoverSitemapLoop_cons_bad hb1,
      discoverSitemapLoop_cons_ok h1 h2]
  · intro hb1 hb2 s t b h1 h2
    rw [discoverSitemap, sitemapProbeUrls, discoverSitemapLoop_cons_bad hb1,
      discoverSitemapLoop_cons_bad hb2, discoverSitemapLoop_cons_ok h1 h2]
  · intro hb1 hb2 hb3
    rw [discoverSitemap, sitemapProbeUrls, discoverSitemapLoop_cons_bad hb1,
      discoverSitemapLoop_cons_bad hb2, discoverSitemapLoop_cons_bad hb3]
    rfl

/-- C8 witness: a network that times out on the first probe and answers
200 on the second; the result is the filtered `<loc>` list of the second
sitemap only. -/
theorem discoverSitemap_first_success_witness :
    discoverSitemap "https://x.com"
      (fun w => if w = "https://x.com/sitemap_index.xml"
        then .response 200 "OK"
          "<urlset><loc>https://x.com/docs/a</loc><loc>https://x.com/blog/b</loc></urlset>"
        else .networkError "timeout") = ["https://x.com/docs/a"] := by
  have h := (discoverSitemap_first_success "https://x.com"
    (fun w => if w = "https://x.com/sitemap_index.xml"
      then .response 200 "OK"
        "<urlset><loc>https://x.com/docs/a</loc><loc>https://x.com/blog/b</loc></urlset>"
      else .networkError "timeout")).2.1 (by decide) 200 "OK"
    "<urlset><loc>https://x.com/docs/a</loc><loc>https://x.com/blog/b</loc></urlset>"
    (by rfl) (by decide)
  exact h.trans (by decide)

/-! ### The compile operation -/

/-- C9: when the seed page fetch of the compile operation returns a
non-2xx status, the response has `success = false`, no content, no
metadata, and an error string `HTTP <status>: <statusText>` which starts
with `HTTP <status>:`. -/
theorem compile_http_error_response (url now : String) (net : String → FetchOutcome)
    (s : Nat) (t b : String)
    (hnet : net url = .response s t b) (hs : statusOk s = false) :
    compileHandler url now net =
      ⟨false, none, none, some ("HTTP " ++ renderNat s ++ ": " ++ t)⟩ ∧
    ("HTTP " ++ renderNat s ++ ":").data.isPrefixOf
      ("HTTP " ++ renderNat s ++ ": " ++ t).data = true := by
  constructor
  · simp only [compileHandler, compileDocumentationSimple, hnet, hs,
      Bool.false_eq_true, if_false]
  · have hd : ("HTTP " ++ renderNat s ++ ": " ++ t).data =
        ("HTTP " ++ renderNat s ++ ":").data ++ (' ' :: t.data) := by
      simp only [string_data_append, List.append_assoc]
      rfl
    rw [hd]
    exact isPrefixOf_append_self

/-- C9 witness: a 503 response produces the failure response with the
error string `HTTP 503: Service Unavailable` and nothing else. -/
theorem compile_http_error_response_witness :
    compileHandler "https://x.com" "2020-01-01T00:00:00.000Z"
      (fun _ => .response 503 "Service Unavailable" "") =
      ⟨false, none, none, some "HTTP 503: Service Unavailable"⟩ := by
  have h := (compile_http_error_response "https://x.com" "2020-01-01T00:00:00.000Z"
    (fun _ => .response 503 "Service Unavailable" "") 503 "Service Unavailable" ""
    rfl (by decide)).1
  rw [show ("HTTP " ++ renderNat 503 ++ ": " ++ "Service Unavailable") =
    "HTTP 503: Service Unavailable" from by decide] at h
  exact h

/-- C10: for every HTML input, the compile route's body extraction is the
script/style-stripped, tag-stripped, whitespace-collapsed and trimmed
page text truncated to its first 2000 characters with the literal `...`
appended, so the result never exceeds 2003 characters regardless of the
page's length. -/
theorem extractContent_truncation (html : String) :
    (extractContent html).data = (cleanedPageText html).take 2000 ++ ['.', '.', '.'] ∧
    (extractContent html).length ≤ 2003 := by
  refine ⟨rfl, ?_⟩
  show ((cleanedPageText html).take 2000 ++ ['.', '.', '.']).length ≤ 2003
  rw [List.length_append, List.length_take,
    show (['.', '.', '.'] : List Char).length = 3 from rfl]
  have := min_le_left 2000 (cleanedPageText html).length
  omega

/-! ### Grouping and category ordering -/

theorem beq_false_of_ne {a b : String} (h : a ≠ b) : (a == b) = false := by
  rw [← Bool.not_eq_true]
  intro hc
  exact h (beq_iff_eq.mp hc)

theorem ne_of_beq_false {a b : String} (h : (a == b) = false) : a ≠ b := by
  intro hc
  subst hc
  simp at h

theorem any_fst_map_bucket (acc : List (String × List PageInfo)) (pcat : String)
    (p : PageInfo) (k : String) :
    ((acc.map (fun kv => if kv.1 == pcat then (kv.1, kv.2 ++ [p]) else kv)).any
        (fun kv => kv.1 == k)) =
      acc.any (fun kv => kv.1 == k) := by
  induction acc with
  | nil => rfl
  | cons kv acc ih =>
    simp only [List.map_cons, List.any_cons, ih]
    congr 1
    split <;> rfl

theorem insertPage_val {acc : List (String × List PageInfo)} {processed : List PageInfo}
    {p : PageInfo}
    (h1 : ∀ kv ∈ acc, kv.2 = processed.filter (fun q => q.category == kv.1))
    (h2 : ∀ k, acc.any (fun kv => kv.1 == k) = processed.any (fun q => q.category == k)) :
    ∀ kv ∈ insertPage acc p,
      kv.2 = (processed ++ [p]).filter (fun q => q.category == kv.1) := by
  intro kv hkv
  rw [List.filter_append]
  unfold insertPage at hkv
  by_cases hany : acc.any (fun kv => kv.1 == p.category) = true
  · rw [if_pos hany] at hkv
    obtain ⟨kv0, hkv0, rfl⟩ := List.mem_map.mp hkv
    by_cases hk : (kv0.1 == p.category) = true
    · have heq : kv0.1 = p.category := beq_iff_eq.mp hk
      have hpcat : (p.category == kv0.1) = true := beq_iff_eq.mpr heq.symm
      simp only [hk, if_true]
      show kv0.2 ++ [p] =
        processed.filter (fun q => q.category == kv0.1) ++
          [p].filter (fun q => q.category == kv0.1)
      rw [h1 kv0 hkv0]
      congr 1
      simp [List.filter_cons, hpcat]
    · have hk' : (kv0.1 == p.category) = false := Bool.eq_false_iff.mpr hk
      have hpcat : (p.category == kv0.1) = false :=
        beq_false_of_ne (Ne.symm (ne_of_beq_false hk'))
      simp only [hk', Bool.false_eq_true, if_false]
      show kv0.2 =
        processed.filter (fun q => q.category == kv0.1) ++
          [p].filter (fun q => q.category == kv0.1)
      rw [h1 kv0 hkv0]
      simp [List.filter_cons, hpcat]
  · rw [if_neg hany] at hkv
    rcases List.mem_append.mp hkv with hmem | hmem
    · have hkf : (kv.1 == p.category) = false := by
        rw [← Bool.not_eq_true]
        intro hc
        exact hany (List.any_eq_true.mpr ⟨kv, hmem, hc⟩)
      have hpf : (p.category == kv.1) = false :=
        beq_false_of_ne (Ne.symm (ne_of_beq_false hkf))
      rw [h1 kv hmem]
      simp [List.filter_cons, hpf]
    · simp only [List.mem_singleton] at hmem
      subst hmem
      show [p] = processed.filter (fun q => q.category == p.category) ++
        [p].filter (fun q => q.category == p.category)
      have hproc : processed.any (fun q => q.category == p.category) = false := by
        rw [← h2 p.category]
        exact Bool.eq_false_iff.mpr hany
      have hall : ∀ q ∈ processed, (q.category == p.category) = false := by
        intro q hq
        rw [← Bool.not_eq_true]
        intro hc
        have hA : processed.any (fun q2 => q2.category == p.category) = true :=
          List.any_eq_true.mpr ⟨q, hq, hc⟩
        rw [hA] at hproc
        cases hproc
      rw [filter_eq_nil_of hall]
      simp [List.filter_cons]

theorem insertPage_any {acc : List (String × List PageInfo)} {processed : List PageInfo}
    {p : PageInfo}
    (h2 : ∀ k, acc.any (fun kv => kv.1 == k) = processed.any (fun q => q.category == k)) :
    ∀ k, (insertPage acc p).any (fun kv => kv.1 == k) =
      (processed ++ [p]).any (fun q => q.category == k) := by
  intro k
  rw [List.any_append]
  have hsing : ([p].any (fun q => q.category == k)) = (p.category == k) := by
    simp [List.any_cons]
  rw [hsing]
  unfold insertPage
  by_cases hany : acc.any (fun kv => kv.1 == p.category) = true
  · rw [if_pos hany, any_fst_map_bucket, h2 k]
    by_cases hpk : (p.category == k) = true
    · have hek : p.category = k := beq_iff_eq.mp hpk
      have hany' := hany
      rw [h2 p.category] at hany'
      rw [hek] at hany'
      rw [hpk, Bool.or_true]
      exact hany'
    · have hpk' : (p.category == k) = false := Bool.eq_false_iff.mpr hpk
      rw [hpk', Bool.or_false]
  · rw [if_neg hany, List.any_append, h2 k]
    congr 1

theorem groupPages_fold_invariant :
    ∀ (ps : List PageInfo) (acc : List (String × List PageInfo)) (processed : List PageInfo),
    (∀ kv ∈ acc, kv.2 = processed.filter (fun q => q.category == kv.1)) →
    (∀ k, acc.any (fun kv => kv.1 == k) = processed.any (fun q => q.category == k)) →
    (∀ kv ∈ ps.foldl insertPage acc,
       kv.2 = (processed ++ ps).filter (fun q => q.category == kv.1)) ∧
    (∀ k, (ps.foldl insertPage acc).any (fun kv => kv.1 == k) =
       (processed ++ ps).any (fun q => q.category == k)) := by
  intro ps
  induction ps with
  | nil =>
    intro acc processed h1 h2
    constructor
    · intro kv hkv
      simpa using h1 kv hkv
    · intro k
      simpa using h2 k
  | cons p ps ih =>
    intro acc processed h1 h2
    have hstep := ih (insertPage acc p) (processed ++ [p])
      (insertPage_val h1 h2) (insertPage_any h2)
    constructor
    · intro kv hkv
      have hv := hstep.1 kv hkv
      rw [List.append_assoc, List.singleton_append] at hv
      exact hv
    · intro k
      have hv := hstep.2 k
      rw [List.append_assoc, List.singleton_append] at hv
      exact hv

theorem groupPages_val {pages : List PageInfo} {kv : String × List PageInfo}
    (h : kv ∈ groupPages pages) :
    kv.2 = pages.filter (fun q => q.category == kv.1) := by
  have hv := (groupPages_fold_invariant pages [] [] (by simp) (fun k => rfl)).1 kv h
  simpa using hv

theorem groupPages_any (pages : List PageInfo) (k : String) :
    (groupPages pages).any (fun kv => kv.1 == k) =
      pages.any (fun q => q.category == k) := by
  have hv := (groupPages_fold_invariant pages [] [] (by simp) (fun k => rfl)).2 k
  simpa using hv

theorem find?_pred {α} {p : α → Bool} : ∀ {l : List α} {a : α},
    l.find? p = some a → p a = true := by
  intro l
  induction l with
  | nil => intro a h; cases h
  | cons x xs ih =>
    intro a h
    by_cases hp : p x = true
    · simp only [List.find?_cons, hp] at h
      cases h
      exact hp
    · have hp' : p x = false := Bool.eq_false_iff.mpr hp
      simp only [List.find?_cons, hp'] at h
      exact ih h

theorem any_map_fst (acc : List (String × List PageInfo)) (c : String) :
    (acc.map Prod.fst).any (fun y => y == c) = acc.any (fun kv => kv.1 == c) := by
  induction acc with
  | nil => rfl
  | cons kv acc ih => simp [List.map_cons, List.any_cons, ih]

theorem map_fst_bucket (acc : List (String × List PageInfo)) (pcat : String) (p : PageInfo) :
    (acc.map (fun kv => if kv.1 == pcat then (kv.1, kv.2 ++ [p]) else kv)).map Prod.fst =
      acc.map Prod.fst := by
  induction acc with
  | nil => rfl
  | cons kv acc ih =>
    simp only [List.map_cons, ih]
    congr 1
    split <;> rfl

theorem dedupAux_congr : ∀ (l s1 s2 : List String),
    (∀ a, s1.any (fun y => y == a) = s2.any (fun y => y == a)) →
    dedupAux s1 l = dedupAux s2 l := by
  intro l
  induction l with
  | nil => intro s1 s2 _; rfl
  | cons x xs ih =>
    intro s1 s2 h
    simp only [dedupAux, h x]
    by_cases hx : s2.any (fun y => y == x) = true
    · rw [if_pos hx, if_pos hx]
      exact ih s1 s2 h
    · rw [if_neg hx, if_neg hx]
      congr 1
      exact ih (x :: s1) (x :: s2) (fun a => by simp [List.any_cons, h a])

theorem keys_groupPages_gen :
    ∀ (ps : List PageInfo) (acc : List (String × List PageInfo)),
    (ps.foldl insertPage acc).map Prod.fst =
      acc.map Prod.fst ++ dedupAux (acc.map Prod.fst) (ps.map (fun p => p.category)) := by
  intro ps
  induction ps with
  | nil => intro acc; simp [dedupAux]
  | cons p ps ih =>
    intro acc
    show (ps.foldl insertPage (insertPage acc p)).map Prod.fst = _
    rw [ih (insertPage acc p)]
    by_cases hany : acc.any (fun kv => kv.1 == p.category) = true
    · have hfst : (insertPage acc p).map Prod.fst = acc.map Prod.fst := by
        unfold insertPage
        rw [if_pos hany]
        exact map_fst_bucket acc p.category p
      rw [hfst]
      congr 1
      simp only [List.map_cons, dedupAux, any_map_fst, hany, if_true]
    · have hany' : acc.any (fun kv => kv.1 == p.category) = false := Bool.eq_false_iff.mpr hany
      have hfst : (insertPage acc p).map Prod.fst = acc.map Prod.fst ++ [p.category] := by
        unfold insertPage
        rw [if_neg hany]
        simp
      rw [hfst]
      simp only [List.map_cons, dedupAux, any_map_fst, hany', Bool.false_eq_true, if_false]
      rw [List.append_assoc, List.singleton_append]
      congr 2
      exact dedupAux_congr (ps.map (fun p => p.category))
        (acc.map Prod.fst ++ [p.category]) (p.category :: acc.map Prod.fst)
        (fun a => by simp [List.any_append, List.any_cons, Bool.or_comm])

theorem keys_groupPages (pages : List PageInfo) :
    (groupPages pages).map Prod.fst = jsDedup (pages.map (fun p => p.category)) := by
  have hv := keys_groupPages_gen pages []
  simpa [jsDedup] using hv

theorem keys_pickPriority_fold (cats : List (String × List PageInfo)) :
    ∀ (pl : List String) (acc : List (String × List PageInfo)),
    (pl.foldl (pickPriority cats) acc).map Prod.fst =
      acc.map Prod.fst ++
        pl.filter (fun c => (cats.find? (fun kv => kv.1 == c)).isSome) := by
  intro pl
  induction pl with
  | nil => intro acc; simp
  | cons c pl ih =>
    intro acc
    show (pl.foldl (pickPriority cats) (pickPriority cats acc c)).map Prod.fst = _
    cases hf : cats.find? (fun kv => kv.1 == c) with
    | none =>
      have hpick : pickPriority cats acc c = acc := by
        unfold pickPriority
        rw [hf]
      rw [hpick, ih]
      simp [List.filter_cons, hf]
    | some kv =>
      have hpick : pickPriority cats acc c = acc ++ [kv] := by
        unfold pickPriority
        rw [hf]
      have hkvpred := @find?_pred _ (fun kv2 => kv2.1 == c) cats kv hf
      have hkv1 : kv.1 = c := beq_iff_eq.mp hkvpred
      rw [hpick, ih]
      simp only [List.map_append, List.filter_cons, hf, Option.isSome_some, if_true]
      rw [List.append_assoc]
      congr 1
      simp [hkv1]

theorem mem_pickPriority_fold (cats : List (String × List PageInfo)) :
    ∀ (pl : List String) (acc : List (String × List PageInfo)) (x : String × List PageInfo),
    x ∈ pl.foldl (pickPriority cats) acc → x ∈ acc ∨ x ∈ cats := by
  intro pl
  induction pl with
  | nil => intro acc x hx; exact Or.inl hx
  | cons c pl ih =>
    intro acc x hx
    rcases ih (pickPriority cats acc c) x hx with h | h
    · unfold pickPriority at h
      cases hf : cats.find? (fun kv => kv.1 == c) with
      | none => rw [hf] at h; exact Or.inl h
      | some kv =>
        rw [hf] at h
        rcases List.mem_append.mp h with h2 | h2
        · exact Or.inl h2
        · simp only [List.mem_singleton] at h2
          subst h2
          exact Or.inr (List.mem_of_find?_eq_some hf)
    · exact Or.inr h

theorem mem_addMissing_fold :
    ∀ (l acc : List (String × List PageInfo)) (x : String × List PageInfo),
    x ∈ l.foldl addMissing acc → x ∈ acc ∨ x ∈ l := by
  intro l
  induction l with
  | nil => intro acc x hx; exact Or.inl hx
  | cons kv l ih =>
    intro acc x hx
    rcases ih (addMissing acc kv) x hx with h | h
    · unfold addMissing at h
      by_cases hany : acc.any (fun kv2 => kv2.1 == kv.1) = true
      · rw [if_pos hany] at h
        exact Or.inl h
      · rw [if_neg hany] at h
        rcases List.mem_append.mp h with h2 | h2
        · exact Or.inl h2
        · simp only [List.mem_singleton] at h2
          subst h2
          exact Or.inr (List.mem_cons_self _ _)
    · exact Or.inr (List.mem_cons_of_mem _ h)

theorem keys_addMissing_fold :
    ∀ (l : List (String × List PageInfo)), (l.map Prod.fst).Nodup →
    ∀ (acc : List (String × List PageInfo)),
    (l.foldl addMissing acc).map Prod.fst =
      acc.map Prod.fst ++
        (l.map Prod.fst).filter
          (fun k => !((acc.map Prod.fst).any (fun y => y == k))) := by
  intro l
  induction l with
  | nil => intro _ acc; simp
  | cons kv l ih =>
    intro hnd acc
    have hnd2 : ((kv :: l).map Prod.fst).Nodup := hnd
    simp only [List.map_cons, List.nodup_cons] at hnd2
    have hnd' : (l.map Prod.fst).Nodup := hnd2.2
    have hkvnotin : kv.1 ∉ l.map Prod.fst := hnd2.1
    show (l.foldl addMissing (addMissing acc kv)).map Prod.fst = _
    by_cases hany : acc.any (fun kv2 => kv2.1 == kv.1) = true
    · have haddeq : addMissing acc kv = acc := by
        unfold addMissing
        rw [if_pos hany]
      rw [haddeq, ih hnd' acc]
      have hpredfalse : (!((acc.map Prod.fst).any (fun y => y == kv.1))) = false := by
        rw [any_map_fst, hany]
        rfl
      simp only [List.map_cons, List.filter_cons, hpredfalse, Bool.false_eq_true, if_false]
    · have hany' : acc.any (fun kv2 => kv2.1 == kv.1) = false := Bool.eq_false_iff.mpr hany
      have haddeq : addMissing acc kv = acc ++ [kv] := by
        unfold addMissing
        rw [if_neg hany]
      rw [haddeq, ih hnd' (acc ++ [kv])]
      have hpredtrue : (!((acc.map Prod.fst).any (fun y => y == kv.1))) = true := by
        rw [any_map_fst, hany']
        rfl
      simp only [List.map_cons, List.map_nil, List.filter_cons, hpredtrue, if_true,
        List.map_append]
      rw [List.append_assoc, List.cons_append, List.nil_append]
      congr 1
      congr 1
      apply filter_congr_of
      intro x hx
      have hxne : x ≠ kv.1 := fun hc => hkvnotin (hc ▸ hx)
      have hfalse : (kv.1 == x) = false := beq_false_of_ne (Ne.symm hxne)
      simp [List.any_append, List.any_cons, hfalse]

/-- C4: `categorizePages` groups the pages by category preserving input
order inside each group (every emitted bucket is exactly the input filter
of its category), and the emitted keys are exactly the fixed priority
order restricted to the categories present, followed by any other present
category in first-seen order; pages in {Examples, Getting Started,
General Documentation} produce keys exactly [Getting Started, Examples,
General Documentation]. -/
theorem categorizePages_grouping_order (pages : List PageInfo) :
    (∀ c lp, (c, lp) ∈ categorizePages pages →
      lp = pages.filter (fun p => p.category == c)) ∧
    (categorizePages pages).map Prod.fst =
      priorityOrder.filter (fun c => pages.any (fun p => p.category == c)) ++
        (jsDedup (pages.map (fun p => p.category))).filter
          (fun c => !(priorityOrder.any (fun y => y == c))) ∧
    (categorizePages
      [⟨"u1", "t1", "Examples", none, "1 chars"⟩,
       ⟨"u2", "t2", "Getting Started", none, "2 chars"⟩,
       ⟨"u3", "t3", "General Documentation", none, "3 chars"⟩]).map Prod.fst =
      ["Getting Started", "Examples", "General Documentation"] := by
  refine ⟨?_, ?_, by rfl⟩
  · intro c lp hmem
    have hcats : (c, lp) ∈ groupPages pages := by
      unfold categorizePages at hmem
      rcases mem_addMissing_fold _ _ _ hmem with h | h
      · rcases mem_pickPriority_fold _ _ _ _ h with h2 | h2
        · cases h2
        · exact h2
      · exact h
    exact groupPages_val hcats
  · unfold categorizePages
    have hnodup : ((groupPages pages).map Prod.fst).Nodup := by
      rw [keys_groupPages]
      exact nodup_dedupAux _ []
    rw [keys_addMissing_fold _ hnodup, keys_pickPriority_fold]
    simp only [List.map_nil, List.nil_append]
    have hpres : priorityOrder.filter
        (fun c => ((groupPages pages).find? (fun kv => kv.1 == c)).isSome) =
        priorityOrder.filter (fun c => pages.any (fun p => p.category == c)) := by
      apply filter_congr_of
      intro c _
      rw [find?_isSome_eq_any, groupPages_any]
    rw [hpres, keys_groupPages]
    congr 1
    apply filter_congr_of
    intro k hkin
    have hk : pages.any (fun p => p.category == k) = true := by
      have hkmem : k ∈ pages.map (fun p => p.category) :=
        ((mem_dedupAux _ _).mp hkin).1
      obtain ⟨p, hp, hpk⟩ := List.mem_map.mp hkmem
      exact List.any_eq_true.mpr ⟨p, hp, beq_iff_eq.mpr hpk⟩
    rw [any_filter_eq]
    congr 1
    apply any_congr_of
    intro x _
    by_cases hxk : (x == k) = true
    · have hxeq : x = k := beq_iff_eq.mp hxk
      subst hxeq
      rw [hk, hxk]
      rfl
    · have h2 : (x == k) = false := Bool.eq_false_iff.mpr hxk
      rw [h2, Bool.and_false]

/-- C4 witness: the grouping conjunct applied to a concrete page list,
discharging the membership hypothesis. -/
theorem categorizePages_grouping_order_witness :
    [(⟨"u1", "t1", "Examples", none, "1 chars"⟩ : PageInfo)] =
      [(⟨"u1", "t1", "Examples", none, "1 chars"⟩ : PageInfo)].filter
        (fun p => p.category == "Examples") := by
  exact (categorizePages_grouping_order
      [⟨"u1", "t1", "Examples", none, "1 chars"⟩]).1 "Examples"
    [⟨"u1", "t1", "Examples", none, "1 chars"⟩] (by simp [categorizePages, groupPages,
      insertPage, priorityOrder, pickPriority, addMissing])

end DocCompiler
